import Mathlib

/-!
# Verification of the event-metrics-service core

Shallow embedding of the event ingestion pipeline
(`internal/events/core/usecase/store_event_usecase.go`, the postgres event
repository) and the metrics query engine (`internal/metrics/core/usecase`,
the postgres metrics repository), together with proofs of the specified
properties.

Machine `int64` values (unix timestamps, row counts) are modelled as `Int`;
none of the verified operations brings them anywhere near the overflow
boundary, so no wrap-around modelling is required.
-/

set_option autoImplicit false

/-! ## Decimal rendering of integers

Embeds the `%d` verb of Go's `fmt.Sprintf` (decimal rendering, a leading
minus sign for negative values). Fuel-based recursion keeps the definition
kernel-reducible; the bridge lemma `natDigitsRev_eq` connects it to
`Nat.digits` for the injectivity proofs. -/

def digitChar (d : Nat) : Char := Char.ofNat (48 + d)

def natDigitsRev (fuel n : Nat) : List Char :=
  match fuel with
  | 0 => []
  | fuel + 1 => if n = 0 then [] else natDigitsRev fuel (n / 10) ++ [digitChar (n % 10)]

def natDec (n : Nat) : String :=
  if n = 0 then "0" else ⟨natDigitsRev n n⟩

def intDec (n : Int) : String :=
  if n < 0 then "-" ++ natDec n.natAbs else natDec n.toNat

/-! ## Events: data model

From `internal/events/core/domain` and `internal/events/core/usecase`.
Go `map[string]any` metadata values are JSON-like; `MetaValue` models the
scalar/array/object shapes the service stores and returns opaquely.
Go nil-able slices/maps are modelled as `Option` (with `none` for Go `nil`),
since the use case distinguishes nil from empty. -/

inductive MetaValue where
  | str (s : String)
  | num (n : Int)
  | boolean (b : Bool)
  | null
  | arr (xs : List MetaValue)
  | obj (fields : List (String × MetaValue))

abbrev MetadataMap := List (String × MetaValue)

structure StoreEventInput where
  EventName  : String
  Channel    : String
  CampaignID : String
  UserID     : String
  Timestamp  : Int
  Tags       : Option (List String)
  Metadata   : Option MetadataMap

structure Event where
  EventName  : String
  Channel    : String
  CampaignID : String
  UserID     : String
  EventTime  : Int
  Tags       : Option (List String)
  Metadata   : Option MetadataMap
  DedupeKey  : String

/-- The error values the events use case can return: the two sentinel
validation errors of `store_event_usecase.go` plus an opaque error
propagated from the repository. -/
inductive GoError where
  | invalidEvent
  | futureTime
  | storage (msg : String)
deriving DecidableEq

/-! ## Events: use case

`StoreEventUseCase.validateInput`, `buildDedupeKey`, `Execute` and
`BulkCreateEvents` from `store_event_usecase.go`. The wall clock
`time.Now().Unix()` is passed in as `now` (one instant per call; the Go
code re-reads the clock per item, which only moves it forward). The
repository port is modelled as a function from the number of insert calls
already made and the event to the reply of `InsertEvent`; the list of
events passed to the repository so far (`calls`) is threaded through
explicitly so that the storage interaction is observable. -/

def validateInput (now : Int) (i : StoreEventInput) : Option GoError :=
  if i.EventName = "" ∨ i.Channel = "" ∨ i.UserID = "" then some .invalidEvent
  else if i.Timestamp > now then some .futureTime
  else none

/-- `buildDedupeKey` from `store_event_usecase.go`:
`fmt.Sprintf("%s|%s|%s|%s|%d", in.EventName, in.UserID, in.Channel, in.CampaignID, t.Unix())`.
`t` is the unix-second value of the event time. -/
def buildDedupeKey (i : StoreEventInput) (t : Int) : String :=
  i.EventName ++ "|" ++ i.UserID ++ "|" ++ i.Channel ++ "|" ++ i.CampaignID ++ "|" ++ intDec t

/-- The event constructed by `Execute` after validation: `eventTime` is
`time.Unix(in.Timestamp, 0).UTC()` (unix seconds, kept as `Int`); nil tags
and nil metadata are replaced by empty ones. -/
def buildEvent (i : StoreEventInput) : Event :=
  let eventTime := i.Timestamp
  let tags := match i.Tags with
    | none => some []
    | some ts => some ts
  let md := match i.Metadata with
    | none => some ([] : MetadataMap)
    | some m => some m
  { EventName := i.EventName
    Channel := i.Channel
    CampaignID := i.CampaignID
    UserID := i.UserID
    EventTime := eventTime
    Tags := tags
    Metadata := md
    DedupeKey := buildDedupeKey i eventTime }

/-- Model of `ports.EventRepositoryPort.InsertEvent`: given the number of
insert calls made so far and the event, the repository replies with
`(created, err)`. -/
def Repo := Nat → Event → Bool × Option String

def StoreEventUseCase.Execute (repo : Repo) (now : Int) (calls : List Event)
    (i : StoreEventInput) : (Bool × Option GoError) × List Event :=
  match validateInput now i with
  | some e => ((false, some e), calls)
  | none =>
    let ev := buildEvent i
    match repo calls.length ev with
    | (_, some msg) => ((false, some (.storage msg)), calls ++ [ev])
    | (created, none) => ((created, none), calls ++ [ev])

structure BulkCreateEventsResult where
  Created    : Nat
  Duplicates : Nat
deriving DecidableEq

/-- The second loop of `BulkCreateEvents`: store each (already validated)
item in order via `Execute`, counting created/duplicate outcomes and
aborting on the first error. -/
def bulkStoreLoop (repo : Repo) (now : Int) :
    List StoreEventInput → BulkCreateEventsResult → List Event →
    (BulkCreateEventsResult × Option GoError) × List Event
  | [], res, calls => ((res, none), calls)
  | ev :: rest, res, calls =>
    match StoreEventUseCase.Execute repo now calls ev with
    | ((ok, none), calls') =>
      bulkStoreLoop repo now rest
        (if ok then { res with Created := res.Created + 1 }
         else { res with Duplicates := res.Duplicates + 1 }) calls'
    | ((_, some e), calls') => ((res, some e), calls')

def StoreEventUseCase.BulkCreateEvents (repo : Repo) (now : Int) (calls : List Event)
    (events : List StoreEventInput) : (BulkCreateEventsResult × Option GoError) × List Event :=
  match events.findSome? (validateInput now) with
  | some e => ((⟨0, 0⟩, some e), calls)
  | none => bulkStoreLoop repo now events ⟨0, 0⟩ calls

/-- Specification device: the repository replies consumed by a validated
bulk run whose first insert happens at call index `base`, in batch order. -/
def bulkResponses (repo : Repo) (base : Nat) :
    List StoreEventInput → List (Bool × Option String)
  | [] => []
  | ev :: rest => repo base (buildEvent ev) :: bulkResponses repo (base + 1) rest

/-! ## Events: postgres repository

`EventRepository.InsertEvent` from `internal/events/adapters/postgres`:
`INSERT INTO events (...) VALUES ($1..$8) ON CONFLICT (dedupe_key) DO NOTHING`,
with `created := rowsAffected > 0`. The database is modelled as a function
from the eight insert arguments to the reply; `json.Marshal` of the
metadata and `pq.Array` of the tags are injective wire encodings performed
at the driver boundary, modelled by passing the values themselves (on the
JSON-like `MetaValue` values `json.Marshal` cannot fail). -/

structure InsertArgs where
  event_name  : String
  channel     : String
  campaign_id : Option String
  user_id     : String
  event_time  : Int
  tags        : Option (List String)
  metadata    : Option MetadataMap
  dedupe_key  : String

/-- Reply of `DB.ExecContext` followed by `sql.Result.RowsAffected`. -/
inductive DBResp where
  | ok (rowsAffected : Int)
  | rowsErr (msg : String)
  | execErr (msg : String)
deriving DecidableEq

/-- The argument vector `InsertEvent` passes to `ExecContext`, including the
empty-campaignId-to-NULL conversion. -/
def insertArgs (e : Event) : InsertArgs :=
  let campaignID : Option String := if e.CampaignID = "" then none else some e.CampaignID
  { event_name := e.EventName
    channel := e.Channel
    campaign_id := campaignID
    user_id := e.UserID
    event_time := e.EventTime
    tags := e.Tags
    metadata := e.Metadata
    dedupe_key := e.DedupeKey }

def EventRepository.InsertEvent (db : InsertArgs → DBResp) (e : Event) : Bool × Option String :=
  match db (insertArgs e) with
  | .execErr msg => (false, some msg)
  | .rowsErr msg => (false, some msg)
  | .ok rows => (decide (rows > 0), none)

/-! ## Metrics: data model and use case

From `internal/metrics/core/domain`, `internal/metrics/core/ports` and
`get_metrics_usecase.go`. The reader port returns either an
`AggregatedMetrics` or an opaque infrastructure error (a `String`), which
`Execute` propagates verbatim (`MetricsError.readerErr`). -/

structure MetricsGroup where
  Key         : String
  TotalCount  : Int
  UniqueUsers : Int
deriving DecidableEq

structure AggregatedMetrics where
  EventName   : String
  From        : Int
  To          : Int
  TotalCount  : Int
  UniqueUsers : Int
  GroupBy     : String
  Groups      : List MetricsGroup
deriving DecidableEq

structure GetMetricsInput where
  EventName : String
  From      : Int
  To        : Int
  Channel   : Option String
  GroupBy   : String
  Interval  : String

structure MetricsFilter where
  EventName : String
  From      : Int
  To        : Int
  Channel   : Option String
  GroupBy   : String
  Interval  : String
deriving DecidableEq

inductive MetricsError where
  | invalidMetricsQuery
  | invalidTimeRange
  | invalidGroupBy
  | invalidInterval
  | readerErr (msg : String)
deriving DecidableEq

/-- The filter `Execute` hands to the reader port: all six input fields,
verbatim. -/
def metricsFilter (i : GetMetricsInput) : MetricsFilter :=
  { EventName := i.EventName
    From := i.From
    To := i.To
    Channel := i.Channel
    GroupBy := i.GroupBy
    Interval := i.Interval }

/-- The early-return validation chain at the head of
`GetMetricsUseCase.Execute`: the `EventName` check, the time-range check,
and the `switch in.GroupBy` (with the interval sub-check of the `"time"`
case), in source order. `none` means every rule passed. -/
def validateMetricsInput (i : GetMetricsInput) : Option MetricsError :=
  if i.EventName = "" then some .invalidMetricsQuery
  else if i.From ≤ 0 ∨ i.To ≤ 0 ∨ i.From > i.To then some .invalidTimeRange
  else if i.GroupBy = "" then none
  else if i.GroupBy = "channel" then none
  else if i.GroupBy = "time" then
    if i.Interval ≠ "hour" ∧ i.Interval ≠ "day" then some .invalidInterval else none
  else some .invalidGroupBy

def GetMetricsUseCase.Execute (reader : MetricsFilter → Except String AggregatedMetrics)
    (i : GetMetricsInput) : Except MetricsError AggregatedMetrics :=
  match validateMetricsInput i with
  | some e => .error e
  | none =>
    match reader (metricsFilter i) with
    | .error msg => .error (.readerErr msg)
    | .ok result => .ok result

/-! ## Metrics: postgres repository (grouped aggregation)

`queryGroupByChannel` and `queryGroupByTime` from
`internal/metrics/adapters/postgres`. The SQL result set is modelled as the
list of rows the row scanner yields (or a scanner/driver error); each
function folds over the rows exactly as the Go loop does, accumulating the
groups and the running `totalSum`/`uniqueSum`. -/

structure ChannelRow where
  channel      : String
  total_count  : Int
  unique_users : Int

structure TimeRow where
  bucket       : Int
  total_count  : Int
  unique_users : Int

/-- `ts.UTC().Format(time.RFC3339)` for a whole-second instant `t` given in
unix seconds: `YYYY-MM-DDThh:mm:ssZ`. Civil date from days since the epoch
by the standard Gregorian-era computation. -/
def civilFromDays (days : Int) : Int × Nat × Nat :=
  let z := days + 719468
  let era := z.ediv 146097
  let doe := (z - era * 146097).toNat
  let yoe := (doe - doe / 1460 + doe / 36524 - doe / 146096) / 365
  let doy := doe - (365 * yoe + yoe / 4 - yoe / 100)
  let mp := (5 * doy + 2) / 153
  let d := doy - (153 * mp + 2) / 5 + 1
  let m := if mp < 10 then mp + 3 else mp - 9
  (((yoe : Int) + era * 400) + (if m ≤ 2 then 1 else 0), m, d)

def pad2 (n : Nat) : String :=
  if n < 10 then "0" ++ natDec n else natDec n

def pad4 (n : Nat) : String :=
  if n < 10 then "000" ++ natDec n
  else if n < 100 then "00" ++ natDec n
  else if n < 1000 then "0" ++ natDec n
  else natDec n

def formatRFC3339 (t : Int) : String :=
  let days := t.ediv 86400
  let sod := (t.emod 86400).toNat
  let c := civilFromDays days
  let y := c.1
  let m := c.2.1
  let d := c.2.2
  let yearStr := if y < 0 then "-" ++ pad4 y.natAbs else pad4 y.toNat
  yearStr ++ "-" ++ pad2 m ++ "-" ++ pad2 d ++ "T" ++
    pad2 (sod / 3600) ++ ":" ++ pad2 (sod % 3600 / 60) ++ ":" ++ pad2 (sod % 60) ++ "Z"

/-- The row loop of `queryGroupByChannel`. -/
def channelRowsLoop : List ChannelRow → List MetricsGroup → Int → Int →
    List MetricsGroup × Int × Int
  | [], groups, totalSum, uniqueSum => (groups, totalSum, uniqueSum)
  | r :: rest, groups, totalSum, uniqueSum =>
    channelRowsLoop rest (groups ++ [⟨r.channel, r.total_count, r.unique_users⟩])
      (totalSum + r.total_count) (uniqueSum + r.unique_users)

/-- The row loop of `queryGroupByTime`: the bucket instant is rendered with
`ts.UTC().Format(time.RFC3339)`. -/
def timeRowsLoop : List TimeRow → List MetricsGroup → Int → Int →
    List MetricsGroup × Int × Int
  | [], groups, totalSum, uniqueSum => (groups, totalSum, uniqueSum)
  | r :: rest, groups, totalSum, uniqueSum =>
    timeRowsLoop rest (groups ++ [⟨formatRFC3339 r.bucket, r.total_count, r.unique_users⟩])
      (totalSum + r.total_count) (uniqueSum + r.unique_users)

def queryGroupByChannel (rows : Except String (List ChannelRow))
    (res : AggregatedMetrics) : Except String AggregatedMetrics :=
  match rows with
  | .error msg => .error msg
  | .ok rs =>
    let out := channelRowsLoop rs [] 0 0
    .ok { res with Groups := out.1, TotalCount := out.2.1, UniqueUsers := out.2.2 }

def queryGroupByTime (rows : Except String (List TimeRow))
    (res : AggregatedMetrics) : Except String AggregatedMetrics :=
  match rows with
  | .error msg => .error msg
  | .ok rs =>
    let out := timeRowsLoop rs [] 0 0
    .ok { res with Groups := out.1, TotalCount := out.2.1, UniqueUsers := out.2.2 }

/-! ## Concrete sample inputs (used in witnesses) -/

def evA : StoreEventInput :=
  { EventName := "a", Channel := "web", CampaignID := "", UserID := "u",
    Timestamp := 1, Tags := none, Metadata := none }

def evNoName : StoreEventInput :=
  { EventName := "", Channel := "web", CampaignID := "", UserID := "u",
    Timestamp := 1, Tags := none, Metadata := none }

def evB : StoreEventInput :=
  { EventName := "b", Channel := "web", CampaignID := "", UserID := "u",
    Timestamp := 1, Tags := none, Metadata := none }

/-! ## Sanity checks on the embedding -/

example :
    buildDedupeKey
      { EventName := "product_view", Channel := "web", CampaignID := "cmp_1",
        UserID := "user_1", Timestamp := 1500, Tags := none, Metadata := none } 1500 =
    "product_view|user_1|web|cmp_1|1500" := by decide

example : intDec (-42) = "-42" := by decide

example : formatRFC3339 0 = "1970-01-01T00:00:00Z" := by decide

example : formatRFC3339 1733565600 = "2024-12-07T10:00:00Z" := by decide

example : formatRFC3339 (-1) = "1969-12-31T23:59:59Z" := by decide

/-! ## Decimal rendering: injectivity -/

theorem natDigitsRev_eq (n : Nat) :
    ∀ fuel, n ≤ fuel → natDigitsRev fuel n = ((Nat.digits 10 n).map digitChar).reverse := by
  induction n using Nat.strong_induction_on with
  | _ n ih =>
    intro fuel hfuel
    match fuel with
    | 0 =>
      have hn : n = 0 := Nat.le_zero.mp hfuel
      subst hn
      simp [natDigitsRev]
    | fuel + 1 =>
      by_cases hn : n = 0
      · subst hn; simp [natDigitsRev]
      · have hdiv : n / 10 < n := Nat.div_lt_self (Nat.pos_of_ne_zero hn) (by norm_num)
        have hle : n / 10 ≤ fuel := Nat.lt_succ_iff.mp (Nat.lt_of_lt_of_le hdiv hfuel)
        have hrec := ih (n / 10) hdiv fuel hle
        have hdig : Nat.digits 10 n = n % 10 :: Nat.digits 10 (n / 10) :=
          Nat.digits_def' (by norm_num) (Nat.pos_of_ne_zero hn)
        simp [natDigitsRev, hn, hrec, hdig, List.reverse_cons]

theorem natDec_eq (n : Nat) :
    natDec n = if n = 0 then "0" else ⟨((Nat.digits 10 n).map digitChar).reverse⟩ := by
  by_cases hn : n = 0
  · simp [natDec, hn]
  · simp [natDec, hn, natDigitsRev_eq n n (Nat.le_refl n)]

theorem digitChar_inj : ∀ d < 10, ∀ e < 10, digitChar d = digitChar e → d = e := by decide

theorem digitChar_ne_dash : ∀ d < 10, digitChar d ≠ Char.ofNat 45 := by decide

theorem map_digitChar_inj : ∀ (l₁ l₂ : List Nat), (∀ d ∈ l₁, d < 10) → (∀ d ∈ l₂, d < 10) →
    l₁.map digitChar = l₂.map digitChar → l₁ = l₂ := by
  intro l₁
  induction l₁ with
  | nil =>
    intro l₂ _ _ h
    cases l₂ with
    | nil => rfl
    | cons b bs => simp at h
  | cons a as ih =>
    intro l₂ h₁ h₂ h
    cases l₂ with
    | nil => simp at h
    | cons b bs =>
      simp only [List.map_cons, List.cons.injEq] at h
      have ha : a < 10 := h₁ a (List.mem_cons_self a as)
      have hb : b < 10 := h₂ b (List.mem_cons_self b bs)
      have hab : a = b := digitChar_inj a ha b hb h.1
      have htail : as = bs :=
        ih bs (fun d hd => h₁ d (List.mem_cons_of_mem a hd))
          (fun d hd => h₂ d (List.mem_cons_of_mem b hd)) h.2
      rw [hab, htail]

theorem digits_lt_ten {n : Nat} : ∀ d ∈ Nat.digits 10 n, d < 10 :=
  fun _ hd => Nat.digits_lt_base (by norm_num) hd

theorem natDec_inj {m n : Nat} (h : natDec m = natDec n) : m = n := by
  rw [natDec_eq, natDec_eq] at h
  by_cases hm : m = 0 <;> by_cases hn : n = 0
  · rw [hm, hn]
  · exfalso
    simp only [hm, if_pos rfl, if_neg hn] at h
    have hdata : (⟨['0']⟩ : String).data = (⟨((Nat.digits 10 n).map digitChar).reverse⟩ : String).data :=
      congrArg String.data h
    simp only [String.data] at hdata
    have hrev : (Nat.digits 10 n).map digitChar = ['0'] := by
      have := hdata.symm
      rw [List.reverse_eq_iff] at this
      simpa using this
    have hzero : digitChar 0 = '0' := by decide
    have hdig : Nat.digits 10 n = [0] := by
      apply map_digitChar_inj _ _ digits_lt_ten (by intro d hd; simp at hd; omega)
      simpa [hzero] using hrev
    have := Nat.ofDigits_digits 10 n
    rw [hdig] at this
    simp [Nat.ofDigits] at this
    exact hn this.symm
  · exfalso
    simp only [hn, if_pos rfl, if_neg hm] at h
    have hdata : (⟨((Nat.digits 10 m).map digitChar).reverse⟩ : String).data = (⟨['0']⟩ : String).data :=
      congrArg String.data h
    simp only [String.data] at hdata
    have hrev : (Nat.digits 10 m).map digitChar = ['0'] := by
      rw [List.reverse_eq_iff] at hdata
      simpa using hdata
    have hzero : digitChar 0 = '0' := by decide
    have hdig : Nat.digits 10 m = [0] := by
      apply map_digitChar_inj _ _ digits_lt_ten (by intro d hd; simp at hd; omega)
      simpa [hzero] using hrev
    have := Nat.ofDigits_digits 10 m
    rw [hdig] at this
    simp [Nat.ofDigits] at this
    exact hm this.symm
  · simp only [if_neg hm, if_neg hn] at h
    have hdata := congrArg String.data h
    simp only [String.data] at hdata
    have hmap : (Nat.digits 10 m).map digitChar = (Nat.digits 10 n).map digitChar :=
      List.reverse_injective hdata
    have hdig : Nat.digits 10 m = Nat.digits 10 n :=
      map_digitChar_inj _ _ digits_lt_ten digits_lt_ten hmap
    have h₁ := Nat.ofDigits_digits 10 m
    have h₂ := Nat.ofDigits_digits 10 n
    rw [← h₁, ← h₂, hdig]

theorem natDec_no_dash (n : Nat) : ∀ c ∈ (natDec n).data, c ≠ '-' := by
  rw [natDec_eq]
  by_cases hn : n = 0
  · rw [if_pos hn]
    intro c hc
    have h0 : ("0" : String).data = ['0'] := rfl
    rw [h0] at hc
    simp at hc
    rw [hc]; decide
  · rw [if_neg hn]
    intro c hc
    simp only [String.data, List.mem_reverse, List.mem_map] at hc
    obtain ⟨d, hd, hdc⟩ := hc
    have hd10 : d < 10 := digits_lt_ten d hd
    have : digitChar d ≠ Char.ofNat 45 := digitChar_ne_dash d hd10
    rw [hdc] at this
    simpa using this

theorem string_append_data (s t : String) : (s ++ t).data = s.data ++ t.data := rfl

theorem intDec_inj {m n : Int} (h : intDec m = intDec n) : m = n := by
  unfold intDec at h
  by_cases hm : m < 0 <;> by_cases hn : n < 0
  · simp only [if_pos hm, if_pos hn] at h
    have hdata := congrArg String.data h
    rw [string_append_data, string_append_data] at hdata
    have hdash : ("-" : String).data = ['-'] := rfl
    rw [hdash] at hdata
    simp only [List.cons_append, List.nil_append, List.cons.injEq, true_and] at hdata
    have habs : m.natAbs = n.natAbs := natDec_inj (String.ext hdata)
    omega
  · exfalso
    simp only [if_pos hm, if_neg hn] at h
    have hdata := congrArg String.data h
    rw [string_append_data] at hdata
    have hdash : ("-" : String).data = ['-'] := rfl
    rw [hdash] at hdata
    have hmem : '-' ∈ (natDec n.toNat).data := by
      rw [← hdata]; simp
    exact natDec_no_dash n.toNat '-' hmem rfl
  · exfalso
    simp only [if_neg hm, if_pos hn] at h
    have hdata := congrArg String.data h
    rw [string_append_data] at hdata
    have hdash : ("-" : String).data = ['-'] := rfl
    rw [hdash] at hdata
    have hmem : '-' ∈ (natDec m.toNat).data := by
      rw [hdata]; simp
    exact natDec_no_dash m.toNat '-' hmem rfl
  · simp only [if_neg hm, if_neg hn] at h
    have := natDec_inj h
    omega

/-! ## Claim C5: ingestion validation precedence -/

/-- C5: for every ingestion input, validation fails `MissingField`
(`ErrInvalidEvent`) exactly when `eventName`, `channel`, or `userId` is
empty; fails `FutureTimestamp` (`ErrFutureTime`) exactly when the fields
are non-empty and the timestamp is strictly later than the wall clock in
seconds; and passes otherwise — the emptiness check is evaluated before
the temporal check, so an input violating both reports `MissingField`. -/
theorem C5_validate_missing_field_before_future (now : Int) (i : StoreEventInput) :
    (validateInput now i = some .invalidEvent ↔
      (i.EventName = "" ∨ i.Channel = "" ∨ i.UserID = "")) ∧
    (validateInput now i = some .futureTime ↔
      (i.EventName ≠ "" ∧ i.Channel ≠ "" ∧ i.UserID ≠ "" ∧ i.Timestamp > now)) ∧
    (validateInput now i = none ↔
      (i.EventName ≠ "" ∧ i.Channel ≠ "" ∧ i.UserID ≠ "" ∧ i.Timestamp ≤ now)) := by
  unfold validateInput
  split_ifs with h1 h2
  · refine ⟨⟨fun _ => h1, fun _ => rfl⟩, ⟨fun h => by simp at h, ?_⟩, ⟨fun h => by simp at h, ?_⟩⟩
    · rintro ⟨hN, hC, hU, -⟩
      rcases h1 with h | h | h <;> simp_all
    · rintro ⟨hN, hC, hU, -⟩
      rcases h1 with h | h | h <;> simp_all
  · push_neg at h1
    refine ⟨⟨fun h => by simp at h, ?_⟩, ⟨fun _ => ⟨h1.1, h1.2.1, h1.2.2, h2⟩, fun _ => rfl⟩,
      ⟨fun h => by simp at h, ?_⟩⟩
    · rintro (h | h | h) <;> simp_all
    · rintro ⟨-, -, -, h⟩
      omega
  · push_neg at h1
    push_neg at h2
    refine ⟨⟨fun h => by simp at h, ?_⟩, ⟨fun h => by simp at h, ?_⟩,
      ⟨fun _ => ⟨h1.1, h1.2.1, h1.2.2, h2⟩, fun _ => rfl⟩⟩
    · rintro (h | h | h) <;> simp_all
    · rintro ⟨-, -, -, h⟩
      omega

/-! ## Claim C9: campaignId NULL conversion in the event repository -/

/-- C9: `InsertEvent` passes SQL NULL for the `campaign_id` column exactly
when the event's campaignId is the empty string, passes the string
unchanged otherwise, and no other insert argument receives an
empty-to-absent conversion (each is passed through verbatim). -/
theorem C9_campaign_id_null_iff_empty (e : Event) :
    ((insertArgs e).campaign_id = none ↔ e.CampaignID = "") ∧
    (∀ c, (insertArgs e).campaign_id = some c ↔ (c = e.CampaignID ∧ e.CampaignID ≠ "")) ∧
    (insertArgs e).event_name = e.EventName ∧
    (insertArgs e).channel = e.Channel ∧
    (insertArgs e).user_id = e.UserID ∧
    (insertArgs e).event_time = e.EventTime ∧
    (insertArgs e).tags = e.Tags ∧
    (insertArgs e).metadata = e.Metadata ∧
    (insertArgs e).dedupe_key = e.DedupeKey := by
  unfold insertArgs
  by_cases h : e.CampaignID = "" <;> simp [h]
  tauto

/-! ## Claims C1 and C10: the stored event -/

/-- Helper shared by the ingestion claims: on a validated input, `Execute`
makes exactly one repository call, passing `buildEvent i`, whatever the
repository replies. -/
theorem execute_calls_of_valid (repo : Repo) (now : Int) (calls : List Event)
    (i : StoreEventInput) (h : validateInput now i = none) :
    (StoreEventUseCase.Execute repo now calls i).2 = calls ++ [buildEvent i] := by
  unfold StoreEventUseCase.Execute
  rw [h]
  rcases hrep : repo calls.length (buildEvent i) with ⟨created, err⟩
  cases err <;> simp [hrep]

/-- C1: for every validated ingestion input, the event handed to the
repository carries the dedupe key
`eventName|userId|channel|campaignId|unixSeconds`, with `|` as the only
separator, in this exact order, the event time rendered as its decimal
unix-second value. -/
theorem C1_dedupe_key_is_frozen_join (repo : Repo) (now : Int) (calls : List Event)
    (i : StoreEventInput) (h : validateInput now i = none) :
    (StoreEventUseCase.Execute repo now calls i).2 = calls ++ [buildEvent i] ∧
    (buildEvent i).DedupeKey =
      i.EventName ++ "|" ++ i.UserID ++ "|" ++ i.Channel ++ "|" ++ i.CampaignID ++ "|" ++
        intDec i.Timestamp :=
  ⟨execute_calls_of_valid repo now calls i h, rfl⟩

/-- C1 witness: a concrete validated input and its stored dedupe key. -/
theorem C1_dedupe_key_is_frozen_join_witness :
    validateInput 100
      { EventName := "signup", Channel := "web", CampaignID := "", UserID := "u1",
        Timestamp := 99, Tags := none, Metadata := none } = none ∧
    ((StoreEventUseCase.Execute (fun _ _ => (true, none)) 100 []
        { EventName := "signup", Channel := "web", CampaignID := "", UserID := "u1",
          Timestamp := 99, Tags := none, Metadata := none }).2 =
      [] ++ [buildEvent
        { EventName := "signup", Channel := "web", CampaignID := "", UserID := "u1",
          Timestamp := 99, Tags := none, Metadata := none }] ∧
     (buildEvent
        { EventName := "signup", Channel := "web", CampaignID := "", UserID := "u1",
          Timestamp := 99, Tags := none, Metadata := none }).DedupeKey =
       "signup" ++ "|" ++ "u1" ++ "|" ++ "web" ++ "|" ++ "" ++ "|" ++ intDec 99) :=
  ⟨rfl, C1_dedupe_key_is_frozen_join (fun _ _ => (true, none)) 100 [] _ rfl⟩

/-- C10: for every validated ingestion input, the stored event's tags and
metadata are the input's with Go `nil` replaced by an empty sequence /
mapping, and non-nil values passed through unchanged; the event handed to
the repository therefore always has non-nil tags and metadata. -/
theorem C10_nil_tags_metadata_defaulted (repo : Repo) (now : Int) (calls : List Event)
    (i : StoreEventInput) (h : validateInput now i = none) :
    (StoreEventUseCase.Execute repo now calls i).2 = calls ++ [buildEvent i] ∧
    (buildEvent i).Tags = some (i.Tags.getD []) ∧
    (buildEvent i).Metadata = some (i.Metadata.getD []) ∧
    (buildEvent i).Tags ≠ none ∧
    (buildEvent i).Metadata ≠ none := by
  refine ⟨execute_calls_of_valid repo now calls i h, ?_, ?_, ?_, ?_⟩
  · cases hT : i.Tags <;> simp [buildEvent, hT]
  · cases hM : i.Metadata <;> simp [buildEvent, hM]
  · cases hT : i.Tags <;> simp [buildEvent, hT]
  · cases hM : i.Metadata <;> simp [buildEvent, hM]

/-- C10 witness: a concrete validated input with nil tags and metadata. -/
theorem C10_nil_tags_metadata_defaulted_witness :
    validateInput 100
      { EventName := "signup", Channel := "web", CampaignID := "c", UserID := "u1",
        Timestamp := 50, Tags := none, Metadata := none } = none ∧
    ((StoreEventUseCase.Execute (fun _ _ => (true, none)) 100 []
        { EventName := "signup", Channel := "web", CampaignID := "c", UserID := "u1",
          Timestamp := 50, Tags := none, Metadata := none }).2 =
      [] ++ [buildEvent
        { EventName := "signup", Channel := "web", CampaignID := "c", UserID := "u1",
          Timestamp := 50, Tags := none, Metadata := none }] ∧
     (buildEvent
        { EventName := "signup", Channel := "web", CampaignID := "c", UserID := "u1",
          Timestamp := 50, Tags := none, Metadata := none }).Tags =
       some ((none : Option (List String)).getD []) ∧
     (buildEvent
        { EventName := "signup", Channel := "web", CampaignID := "c", UserID := "u1",
          Timestamp := 50, Tags := none, Metadata := none }).Metadata =
       some ((none : Option MetadataMap).getD []) ∧
     (buildEvent
        { EventName := "signup", Channel := "web", CampaignID := "c", UserID := "u1",
          Timestamp := 50, Tags := none, Metadata := none }).Tags ≠ none ∧
     (buildEvent
        { EventName := "signup", Channel := "web", CampaignID := "c", UserID := "u1",
          Timestamp := 50, Tags := none, Metadata := none }).Metadata ≠ none) :=
  ⟨rfl, C10_nil_tags_metadata_defaulted (fun _ _ => (true, none)) 100 [] _ rfl⟩

/-! ## Claim C2: the dedupe key separates the five coordinates -/

/-- The dedupe key's character data, with the five coordinates exposed for
cancellation arguments. -/
theorem dedupeKey_data (i : StoreEventInput) (t : Int) :
    (buildDedupeKey i t).data =
      i.EventName.data ++ '|' :: (i.UserID.data ++ '|' :: (i.Channel.data ++ '|' ::
        (i.CampaignID.data ++ '|' :: (intDec t).data))) := by
  have hbar : ("|" : String).data = ['|'] := rfl
  simp [buildDedupeKey, string_append_data, hbar, List.append_assoc]

/-- C2: the dedupe key builder is deterministic — it depends on nothing but
eventName, userId, channel, campaignId and the second-floored event time —
and separating: two inputs that agree on four of those coordinates and
differ in the remaining one (including empty vs. non-empty campaignId)
yield different keys. -/
theorem C2_dedupe_key_deterministic_separating (i j : StoreEventInput) (s t : Int) :
    ((i.EventName = j.EventName ∧ i.UserID = j.UserID ∧ i.Channel = j.Channel ∧
      i.CampaignID = j.CampaignID ∧ s = t) →
      buildDedupeKey i s = buildDedupeKey j t) ∧
    ((i.UserID = j.UserID ∧ i.Channel = j.Channel ∧ i.CampaignID = j.CampaignID ∧ s = t ∧
      i.EventName ≠ j.EventName) →
      buildDedupeKey i s ≠ buildDedupeKey j t) ∧
    ((i.EventName = j.EventName ∧ i.Channel = j.Channel ∧ i.CampaignID = j.CampaignID ∧ s = t ∧
      i.UserID ≠ j.UserID) →
      buildDedupeKey i s ≠ buildDedupeKey j t) ∧
    ((i.EventName = j.EventName ∧ i.UserID = j.UserID ∧ i.CampaignID = j.CampaignID ∧ s = t ∧
      i.Channel ≠ j.Channel) →
      buildDedupeKey i s ≠ buildDedupeKey j t) ∧
    ((i.EventName = j.EventName ∧ i.UserID = j.UserID ∧ i.Channel = j.Channel ∧ s = t ∧
      i.CampaignID ≠ j.CampaignID) →
      buildDedupeKey i s ≠ buildDedupeKey j t) ∧
    ((i.EventName = j.EventName ∧ i.UserID = j.UserID ∧ i.Channel = j.Channel ∧
      i.CampaignID = j.CampaignID ∧ s ≠ t) →
      buildDedupeKey i s ≠ buildDedupeKey j t) := by
  refine ⟨?_, ?_, ?_, ?_, ?_, ?_⟩
  · rintro ⟨h1, h2, h3, h4, h5⟩
    unfold buildDedupeKey
    rw [h1, h2, h3, h4, h5]
  · rintro ⟨h2, h3, h4, h5, hne⟩ hkey
    apply hne
    have hd := congrArg String.data hkey
    rw [dedupeKey_data, dedupeKey_data, h2, h3, h4, h5] at hd
    exact String.ext (List.append_cancel_right hd)
  · rintro ⟨h1, h3, h4, h5, hne⟩ hkey
    apply hne
    have hd := congrArg String.data hkey
    rw [dedupeKey_data, dedupeKey_data, h1, h3, h4, h5] at hd
    have h6 := List.append_cancel_left hd
    injection h6 with _ h7
    exact String.ext (List.append_cancel_right h7)
  · rintro ⟨h1, h2, h4, h5, hne⟩ hkey
    apply hne
    have hd := congrArg String.data hkey
    rw [dedupeKey_data, dedupeKey_data, h1, h2, h4, h5] at hd
    have h6 := List.append_cancel_left hd
    injection h6 with _ h7
    have h8 := List.append_cancel_left h7
    injection h8 with _ h9
    exact String.ext (List.append_cancel_right h9)
  · rintro ⟨h1, h2, h3, h5, hne⟩ hkey
    apply hne
    have hd := congrArg String.data hkey
    rw [dedupeKey_data, dedupeKey_data, h1, h2, h3, h5] at hd
    have h6 := List.append_cancel_left hd
    injection h6 with _ h7
    have h8 := List.append_cancel_left h7
    injection h8 with _ h9
    have h10 := List.append_cancel_left h9
    injection h10 with _ h11
    exact String.ext (List.append_cancel_right h11)
  · rintro ⟨h1, h2, h3, h4, hne⟩ hkey
    apply hne
    have hd := congrArg String.data hkey
    rw [dedupeKey_data, dedupeKey_data, h1, h2, h3, h4] at hd
    have h6 := List.append_cancel_left hd
    injection h6 with _ h7
    have h8 := List.append_cancel_left h7
    injection h8 with _ h9
    have h10 := List.append_cancel_left h9
    injection h10 with _ h11
    have h12 := List.append_cancel_left h11
    injection h12 with _ h13
    exact intDec_inj (String.ext h13)

/-- C2 witness: empty vs. non-empty campaignId, all other coordinates
identical, yields distinct keys. -/
theorem C2_dedupe_key_deterministic_separating_witness :
    (({ EventName := "e", Channel := "web", CampaignID := "", UserID := "u",
        Timestamp := 7, Tags := none, Metadata := none } : StoreEventInput).EventName =
       ({ EventName := "e", Channel := "web", CampaignID := "cmp_1", UserID := "u",
          Timestamp := 7, Tags := none, Metadata := none } : StoreEventInput).EventName ∧
     ("u" : String) = "u" ∧ ("web" : String) = "web" ∧ (7 : Int) = 7 ∧
     ("" : String) ≠ "cmp_1") ∧
    buildDedupeKey
        { EventName := "e", Channel := "web", CampaignID := "", UserID := "u",
          Timestamp := 7, Tags := none, Metadata := none } 7 ≠
      buildDedupeKey
        { EventName := "e", Channel := "web", CampaignID := "cmp_1", UserID := "u",
          Timestamp := 7, Tags := none, Metadata := none } 7 :=
  ⟨⟨rfl, rfl, rfl, rfl, by decide⟩,
   (C2_dedupe_key_deterministic_separating
      { EventName := "e", Channel := "web", CampaignID := "", UserID := "u",
        Timestamp := 7, Tags := none, Metadata := none }
      { EventName := "e", Channel := "web", CampaignID := "cmp_1", UserID := "u",
        Timestamp := 7, Tags := none, Metadata := none } 7 7).2.2.2.2.1
     ⟨rfl, rfl, rfl, rfl, by decide⟩⟩

/-! ## Claim C4: metrics query validation precedence -/

/-- C4: metrics query validation follows a fixed precedence and reports
exactly one failure kind — empty eventName fails `InvalidQuery`; otherwise
a non-positive bound or `from > to` fails `InvalidTimeRange` (`from = to`
accepted); otherwise groupMode `""`/`"channel"` are accepted with the
interval ignored, `"time"` requires interval `"hour"`/`"day"` (else
`InvalidInterval`), any other groupMode fails `InvalidGroupBy`; and when
every rule passes the reader is invoked with the same six field values. -/
theorem C4_metrics_validation_precedence
    (reader : MetricsFilter → Except String AggregatedMetrics) (i : GetMetricsInput) :
    (GetMetricsUseCase.Execute reader i = .error .invalidMetricsQuery ↔
      i.EventName = "") ∧
    (GetMetricsUseCase.Execute reader i = .error .invalidTimeRange ↔
      (i.EventName ≠ "" ∧ (i.From ≤ 0 ∨ i.To ≤ 0 ∨ i.From > i.To))) ∧
    (GetMetricsUseCase.Execute reader i = .error .invalidInterval ↔
      (i.EventName ≠ "" ∧ ¬(i.From ≤ 0 ∨ i.To ≤ 0 ∨ i.From > i.To) ∧
       i.GroupBy = "time" ∧ i.Interval ≠ "hour" ∧ i.Interval ≠ "day")) ∧
    (GetMetricsUseCase.Execute reader i = .error .invalidGroupBy ↔
      (i.EventName ≠ "" ∧ ¬(i.From ≤ 0 ∨ i.To ≤ 0 ∨ i.From > i.To) ∧
       i.GroupBy ≠ "" ∧ i.GroupBy ≠ "channel" ∧ i.GroupBy ≠ "time")) ∧
    (∀ m, GetMetricsUseCase.Execute reader i = .ok m ↔
      (i.EventName ≠ "" ∧ ¬(i.From ≤ 0 ∨ i.To ≤ 0 ∨ i.From > i.To) ∧
       (i.GroupBy = "" ∨ i.GroupBy = "channel" ∨
        (i.GroupBy = "time" ∧ (i.Interval = "hour" ∨ i.Interval = "day"))) ∧
       reader (metricsFilter i) = .ok m)) ∧
    (∀ msg, GetMetricsUseCase.Execute reader i = .error (.readerErr msg) ↔
      (i.EventName ≠ "" ∧ ¬(i.From ≤ 0 ∨ i.To ≤ 0 ∨ i.From > i.To) ∧
       (i.GroupBy = "" ∨ i.GroupBy = "channel" ∨
        (i.GroupBy = "time" ∧ (i.Interval = "hour" ∨ i.Interval = "day"))) ∧
       reader (metricsFilter i) = .error msg)) := by
  unfold GetMetricsUseCase.Execute validateMetricsInput
  split_ifs with hA hB hC hD hE hF <;>
    rcases hr : reader (metricsFilter i) with msg | m <;>
    simp_all <;>
    tauto

/-! ## Claim C6: grouped top-level counts are sums over the groups -/

/-- The channel row loop appends one group per row and accumulates the two
running sums. -/
theorem channelRowsLoop_spec (rows : List ChannelRow) :
    ∀ (groups : List MetricsGroup) (t u : Int),
      channelRowsLoop rows groups t u =
        (groups ++ rows.map (fun r => ⟨r.channel, r.total_count, r.unique_users⟩),
         t + (rows.map ChannelRow.total_count).sum,
         u + (rows.map ChannelRow.unique_users).sum) := by
  induction rows with
  | nil => intro groups t u; simp [channelRowsLoop]
  | cons r rest ih =>
    intro groups t u
    simp [channelRowsLoop, ih, add_assoc]

/-- The time row loop appends one group per row (bucket rendered as
RFC3339) and accumulates the two running sums. -/
theorem timeRowsLoop_spec (rows : List TimeRow) :
    ∀ (groups : List MetricsGroup) (t u : Int),
      timeRowsLoop rows groups t u =
        (groups ++ rows.map (fun r => ⟨formatRFC3339 r.bucket, r.total_count, r.unique_users⟩),
         t + (rows.map TimeRow.total_count).sum,
         u + (rows.map TimeRow.unique_users).sum) := by
  induction rows with
  | nil => intro groups t u; simp [timeRowsLoop]
  | cons r rest ih =>
    intro groups t u
    simp [timeRowsLoop, ih, add_assoc]

/-- C6: for every row sequence returned by the read collaborator under
grouping by channel or by time, the top-level `TotalCount` and
`UniqueUsers` of the returned metrics are the arithmetic sums of the
per-group values over the returned groups. -/
theorem C6_top_level_counts_sum_groups (chRows : List ChannelRow) (tRows : List TimeRow)
    (res₁ res₂ : AggregatedMetrics) :
    (∃ m, queryGroupByChannel (.ok chRows) res₁ = .ok m ∧
       m.TotalCount = (m.Groups.map MetricsGroup.TotalCount).sum ∧
       m.UniqueUsers = (m.Groups.map MetricsGroup.UniqueUsers).sum) ∧
    (∃ m, queryGroupByTime (.ok tRows) res₂ = .ok m ∧
       m.TotalCount = (m.Groups.map MetricsGroup.TotalCount).sum ∧
       m.UniqueUsers = (m.Groups.map MetricsGroup.UniqueUsers).sum) := by
  constructor
  · refine ⟨_, rfl, ?_, ?_⟩ <;>
      simp [queryGroupByChannel, channelRowsLoop_spec, List.map_map, Function.comp_def]
  · refine ⟨_, rfl, ?_, ?_⟩ <;>
      simp [queryGroupByTime, timeRowsLoop_spec, List.map_map, Function.comp_def]

/-! ## Claim C7: Duplicate is a non-error outcome, exactly on zero rows -/

/-- C7: for a validated input, with the use case wired to the postgres
repository, the call returns the Duplicate outcome (`created = false`, no
error) exactly when the insert-if-absent reports zero rows affected,
returns Created exactly when it reports a row inserted, and returns an
error (with `created = false`) exactly on an infrastructure fault —
Duplicate is never surfaced as an error. -/
theorem C7_duplicate_outcome_iff_zero_rows (db : InsertArgs → DBResp) (now : Int)
    (calls : List Event) (i : StoreEventInput) (hval : validateInput now i = none)
    (hnn : ∀ r, db (insertArgs (buildEvent i)) = .ok r → 0 ≤ r) :
    (StoreEventUseCase.Execute (fun _ e => EventRepository.InsertEvent db e) now calls i =
        ((false, none), calls ++ [buildEvent i]) ↔
      db (insertArgs (buildEvent i)) = .ok 0) ∧
    (StoreEventUseCase.Execute (fun _ e => EventRepository.InsertEvent db e) now calls i =
        ((true, none), calls ++ [buildEvent i]) ↔
      ∃ r, 0 < r ∧ db (insertArgs (buildEvent i)) = .ok r) ∧
    (∀ msg, StoreEventUseCase.Execute (fun _ e => EventRepository.InsertEvent db e) now calls i =
        ((false, some (.storage msg)), calls ++ [buildEvent i]) ↔
      (db (insertArgs (buildEvent i)) = .execErr msg ∨
       db (insertArgs (buildEvent i)) = .rowsErr msg)) := by
  unfold StoreEventUseCase.Execute EventRepository.InsertEvent
  rw [hval]
  cases hdb : db (insertArgs (buildEvent i)) with
  | ok r =>
    have hr := hnn r hdb
    by_cases h0 : 0 < r <;> simp_all <;> omega
  | rowsErr msg => simp_all
  | execErr msg => simp_all

/-- C7 witness: a repository reporting zero rows affected yields the
Duplicate outcome with no error. -/
theorem C7_duplicate_outcome_iff_zero_rows_witness :
    validateInput 100
      { EventName := "signup", Channel := "web", CampaignID := "", UserID := "u1",
        Timestamp := 99, Tags := none, Metadata := none } = none ∧
    (∀ r, (fun _ : InsertArgs => DBResp.ok 0)
        (insertArgs (buildEvent
          { EventName := "signup", Channel := "web", CampaignID := "", UserID := "u1",
            Timestamp := 99, Tags := none, Metadata := none })) = .ok r → 0 ≤ r) ∧
    StoreEventUseCase.Execute
        (fun _ e => EventRepository.InsertEvent (fun _ => DBResp.ok 0) e) 100 []
        { EventName := "signup", Channel := "web", CampaignID := "", UserID := "u1",
          Timestamp := 99, Tags := none, Metadata := none } =
      ((false, none), [] ++ [buildEvent
        { EventName := "signup", Channel := "web", CampaignID := "", UserID := "u1",
          Timestamp := 99, Tags := none, Metadata := none }]) :=
  ⟨rfl, fun r h => by injection h with h; omega,
   ((C7_duplicate_outcome_iff_zero_rows (fun _ => DBResp.ok 0) 100 []
      { EventName := "signup", Channel := "web", CampaignID := "", UserID := "u1",
        Timestamp := 99, Tags := none, Metadata := none } rfl
      (fun r h => by injection h with h; omega)).1).mpr rfl⟩

/-! ## Claim C3: bulk validation gate -/

/-- C3: if any item of a batch fails validation, `BulkCreateEvents`
returns that item's validation error (the first failing item's, in batch
order) with zero-valued counts, and performs no repository call at all. -/
theorem C3_bulk_validation_gate (repo : Repo) (now : Int) (calls : List Event)
    (events : List StoreEventInput)
    (h : ∃ ev ∈ events, validateInput now ev ≠ none) :
    ∃ ge, (∃ ev ∈ events, validateInput now ev = some ge) ∧
      StoreEventUseCase.BulkCreateEvents repo now calls events = ((⟨0, 0⟩, some ge), calls) := by
  have hne : events.findSome? (validateInput now) ≠ none := by
    intro hnone
    rw [List.findSome?_eq_none_iff] at hnone
    obtain ⟨ev, hev, hbad⟩ := h
    exact hbad (hnone ev hev)
  obtain ⟨ge, hge⟩ := Option.ne_none_iff_exists'.mp hne
  refine ⟨ge, List.exists_of_findSome?_eq_some hge, ?_⟩
  unfold StoreEventUseCase.BulkCreateEvents
  rw [hge]

/-- C3 witness: the spec's example batch `[valid, {eventName:""}, valid]`
aborts with the validation error and an unchanged call trace. -/
theorem C3_bulk_validation_gate_witness :
    (∃ ev ∈ [evA, evNoName, evB], validateInput 100 ev ≠ none) ∧
    ∃ ge, (∃ ev ∈ [evA, evNoName, evB], validateInput 100 ev = some ge) ∧
      StoreEventUseCase.BulkCreateEvents (fun _ _ => (true, none)) 100 [] [evA, evNoName, evB] =
        ((⟨0, 0⟩, some ge), []) :=
  ⟨by decide, C3_bulk_validation_gate (fun _ _ => (true, none)) 100 [] _ (by decide)⟩

/-! ## Claim C8: bulk storage order, counts, and abort-on-error -/

/-- On a fully validated batch whose repository replies all succeed, the
store loop performs one insert per item in batch order and counts
created/duplicate replies. -/
theorem bulkStoreLoop_ok (repo : Repo) (now : Int) :
    ∀ (events : List StoreEventInput) (res : BulkCreateEventsResult) (calls : List Event),
      (∀ ev ∈ events, validateInput now ev = none) →
      (∀ r ∈ bulkResponses repo calls.length events, r.2 = none) →
      bulkStoreLoop repo now events res calls =
        ((⟨res.Created + (bulkResponses repo calls.length events).countP (fun r => r.1),
           res.Duplicates + (bulkResponses repo calls.length events).countP (fun r => !r.1)⟩,
          none),
         calls ++ events.map buildEvent) := by
  intro events
  induction events with
  | nil =>
    intro res calls _ _
    simp [bulkStoreLoop, bulkResponses]
  | cons ev rest ih =>
    intro res calls hval hok
    have hv : validateInput now ev = none := hval ev (List.mem_cons_self ev rest)
    have hhead : (repo calls.length (buildEvent ev)).2 = none :=
      hok _ (by simp [bulkResponses])
    rcases hrep : repo calls.length (buildEvent ev) with ⟨b, err⟩
    rw [hrep] at hhead
    subst hhead
    have hlen : (calls ++ [buildEvent ev]).length = calls.length + 1 := by simp
    have htail : ∀ r ∈ bulkResponses repo (calls ++ [buildEvent ev]).length rest, r.2 = none := by
      rw [hlen]
      intro r hr
      exact hok r (by simp [bulkResponses, hr])
    have ihr := ih (if b then { res with Created := res.Created + 1 }
                    else { res with Duplicates := res.Duplicates + 1 })
      (calls ++ [buildEvent ev]) (fun e he => hval e (List.mem_cons_of_mem ev he)) htail
    rw [hlen] at ihr
    simp only [bulkStoreLoop, StoreEventUseCase.Execute, hv, hrep]
    rw [ihr]
    have hresp : bulkResponses repo calls.length (ev :: rest) =
        (b, none) :: bulkResponses repo (calls.length + 1) rest := by
      simp [bulkResponses, hrep]
    rw [hresp]
    cases b <;>
      simp [List.countP_cons, BulkCreateEventsResult.mk.injEq, Prod.ext_iff] <;>
      omega

/-- On a fully validated batch whose repository replies succeed up to call
`N` and fail at call `N`, the store loop makes exactly the calls
`0..N`, keeps the counts accumulated before `N`, and aborts with the
storage error. -/
theorem bulkStoreLoop_fail (repo : Repo) (now : Int) :
    ∀ (N : Nat) (events : List StoreEventInput) (res : BulkCreateEventsResult)
      (calls : List Event),
      (∀ ev ∈ events, validateInput now ev = none) →
      (∀ r ∈ (bulkResponses repo calls.length events).take N, r.2 = none) →
      ∀ b msg, (bulkResponses repo calls.length events)[N]? = some (b, some msg) →
      bulkStoreLoop repo now events res calls =
        ((⟨res.Created + ((bulkResponses repo calls.length events).take N).countP (fun r => r.1),
           res.Duplicates +
             ((bulkResponses repo calls.length events).take N).countP (fun r => !r.1)⟩,
          some (.storage msg)),
         calls ++ (events.take (N + 1)).map buildEvent) := by
  intro N
  induction N with
  | zero =>
    intro events res calls hval htake b msg hN
    cases events with
    | nil => simp [bulkResponses] at hN
    | cons ev rest =>
      have hv : validateInput now ev = none := hval ev (List.mem_cons_self ev rest)
      have hhead : repo calls.length (buildEvent ev) = (b, some msg) := by
        simpa [bulkResponses] using hN
      simp [bulkStoreLoop, StoreEventUseCase.Execute, hv, hhead, bulkResponses]
  | succ N ih =>
    intro events res calls hval htake b msg hN
    cases events with
    | nil => simp [bulkResponses] at hN
    | cons ev rest =>
      have hv : validateInput now ev = none := hval ev (List.mem_cons_self ev rest)
      have hresp0 : bulkResponses repo calls.length (ev :: rest) =
          repo calls.length (buildEvent ev) :: bulkResponses repo (calls.length + 1) rest := by
        simp [bulkResponses]
      have hhead : (repo calls.length (buildEvent ev)).2 = none := by
        refine htake _ ?_
        rw [hresp0, List.take_succ_cons]
        exact List.mem_cons_self _ _
      rcases hrep : repo calls.length (buildEvent ev) with ⟨b0, err0⟩
      rw [hrep] at hhead
      subst hhead
      have hlen : (calls ++ [buildEvent ev]).length = calls.length + 1 := by simp
      have htail : ∀ r ∈ (bulkResponses repo (calls ++ [buildEvent ev]).length rest).take N,
          r.2 = none := by
        rw [hlen]
        intro r hr
        refine htake r ?_
        rw [hresp0, List.take_succ_cons]
        exact List.mem_cons_of_mem _ hr
      have hN' : (bulkResponses repo (calls ++ [buildEvent ev]).length rest)[N]? =
          some (b, some msg) := by
        rw [hlen]
        rw [hresp0] at hN
        simpa using hN
      have ihr := ih rest (if b0 then { res with Created := res.Created + 1 }
                           else { res with Duplicates := res.Duplicates + 1 })
        (calls ++ [buildEvent ev]) (fun e he => hval e (List.mem_cons_of_mem ev he)) htail b msg hN'
      rw [hlen] at ihr
      simp only [bulkStoreLoop, StoreEventUseCase.Execute, hv, hrep]
      rw [ihr, hresp0, hrep]
      cases b0 <;>
        simp [List.countP_cons, List.take_succ_cons, BulkCreateEventsResult.mk.injEq,
          Prod.ext_iff] <;>
        omega

/-- C8: on a batch in which every item passes validation, items are stored
one at a time in batch order; `createdCount`/`duplicateCount` are the
numbers of repository replies reporting created resp. duplicate; and if
the repository fails at call `N`, the call returns that storage error
immediately, makes no call past `N`, and the calls before `N` stand (no
rollback). -/
theorem C8_bulk_counts_and_abort (repo : Repo) (now : Int) (calls : List Event)
    (events : List StoreEventInput)
    (hval : ∀ ev ∈ events, validateInput now ev = none) :
    ((∀ r ∈ bulkResponses repo calls.length events, r.2 = none) →
      StoreEventUseCase.BulkCreateEvents repo now calls events =
        ((⟨(bulkResponses repo calls.length events).countP (fun r => r.1),
           (bulkResponses repo calls.length events).countP (fun r => !r.1)⟩, none),
         calls ++ events.map buildEvent)) ∧
    (∀ N b msg, (∀ r ∈ (bulkResponses repo calls.length events).take N, r.2 = none) →
      (bulkResponses repo calls.length events)[N]? = some (b, some msg) →
      StoreEventUseCase.BulkCreateEvents repo now calls events =
        ((⟨((bulkResponses repo calls.length events).take N).countP (fun r => r.1),
           ((bulkResponses repo calls.length events).take N).countP (fun r => !r.1)⟩,
          some (.storage msg)),
         calls ++ (events.take (N + 1)).map buildEvent)) := by
  have hgate : events.findSome? (validateInput now) = none :=
    List.findSome?_eq_none_iff.mpr hval
  constructor
  · intro hok
    unfold StoreEventUseCase.BulkCreateEvents
    rw [hgate]
    have := bulkStoreLoop_ok repo now events ⟨0, 0⟩ calls hval hok
    simpa using this
  · intro N b msg htake hN
    unfold StoreEventUseCase.BulkCreateEvents
    rw [hgate]
    have := bulkStoreLoop_fail repo now N events ⟨0, 0⟩ calls hval htake b msg hN
    simpa using this

/-- C8 witness: the spec's example — a validated batch of three where
storage reports created, duplicate, created — yields counts 2/1 and three
repository calls in batch order. -/
theorem C8_bulk_counts_and_abort_witness :
    (∀ ev ∈ [evA, evB, evA], validateInput 100 ev = none) ∧
    (∀ r ∈ bulkResponses (fun k _ => (decide (k ≠ 1), none)) 0 [evA, evB, evA], r.2 = none) ∧
    StoreEventUseCase.BulkCreateEvents (fun k _ => (decide (k ≠ 1), none)) 100 []
        [evA, evB, evA] =
      ((⟨2, 1⟩, none), [buildEvent evA, buildEvent evB, buildEvent evA]) :=
  ⟨by decide, by decide,
   ((C8_bulk_counts_and_abort (fun k _ => (decide (k ≠ 1), none)) 100 [] [evA, evB, evA]
      (by decide)).1 (by decide)).trans rfl⟩
